import Mathlib

/-!
Shallow embedding of the Calendar-Agent repository (src/models.py,
src/tools.py, src/main.py) and theorems about its conversation history,
email summarization, free-slot search, intent classification, dispatch,
event-listing defaults, send-confirmation flow and model-response cleaning.

Python strings are modelled as Lean `String` / `List Char`; datetimes as
integers (minutes for the calendar arithmetic, day numbers for the listing
defaults, abstract ticks for message timestamps); the Gmail/Calendar network
backends are modelled by passing the raw data they would return as explicit
arguments.
-/

namespace CalendarAgent

/-- models.py lines 33-37, `Message`: role, content and a timestamp field.
The pydantic default `timestamp: datetime = datetime.now()` is evaluated once,
when the class body is executed; that single module-load-time clock value is
the explicit `classDefTime` argument of `mkMessage` below. -/
structure Message where
  role : String
  content : String
  timestamp : Nat
deriving DecidableEq

/-- models.py line 46: `Message(role=role, content=content)` never passes a
timestamp, so the field takes the class-definition-time default. -/
def mkMessage (classDefTime : Nat) (role content : String) : Message :=
  { role := role, content := content, timestamp := classDefTime }

/-- models.py lines 39-42, `ConversationHistory` with its defaults. -/
structure ConversationHistory where
  messages : List Message := []
  max_history : Nat := 10
deriving DecidableEq

/-- models.py lines 44-48, `ConversationHistory.add_message`: append a new
`Message`, then `self.messages.pop(0)` when the length exceeds `max_history`. -/
def add_message (classDefTime : Nat) (h : ConversationHistory) (role content : String) :
    ConversationHistory :=
  let msgs := h.messages ++ [mkMessage classDefTime role content]
  if msgs.length > h.max_history then { h with messages := msgs.tail }
  else { h with messages := msgs }

/-- A whole sequence of `add_message` calls (main.py lines 755 and 761 perform
one call per conversational turn). -/
def addAll (classDefTime : Nat) (h : ConversationHistory) (calls : List (String × String)) :
    ConversationHistory :=
  calls.foldl (fun acc rc => add_message classDefTime acc rc.1 rc.2) h

/-- Fields of a raw Gmail API message record that `get_all_emails` reads for
the read/unread status (tools.py lines 48-73); the header and body fields are
abstracted away. -/
structure RawEmailMsg where
  id : String
  labelIds : List String
deriving DecidableEq

/-- Projection of the `Email` pydantic record (models.py lines 5-14) to the
fields the summarization counts read. -/
structure EmailRec where
  id : String
  is_read : Bool
deriving DecidableEq

/-- tools.py lines 35-75, `GmailTools.get_all_emails`: each message returned by
the backend becomes an `Email` with `is_read='UNREAD' in msg['labelIds']`
(tools.py line 72). The network call is modelled by taking the raw messages
the backend would return as the argument. -/
def get_all_emails (msgs : List RawEmailMsg) : List EmailRec :=
  msgs.map fun m => { id := m.id, is_read := m.labelIds.contains "UNREAD" }

/-- tools.py line 123, in `GmailTools.get_email`: the opposite convention,
`is_read='UNREAD' not in msg['labelIds']`. -/
def get_email_is_read (m : RawEmailMsg) : Bool := !(m.labelIds.contains "UNREAD")

/-- models.py lines 16-21, `EmailSummary`, restricted to its scalar fields
(`recent_emails` just mirrors the fetched list). -/
structure EmailSummary where
  total_emails : Nat
  unread_count : Nat
  summary : String
deriving DecidableEq

/-- main.py lines 586-640, `CalendarAgent.summarize_emails`: fetch with
`unread_only=True`, raise when nothing comes back (modelled as `none`), and
build the `EmailSummary` with `total_emails = len(emails)` and
`unread_count = len([e for e in emails if not e.is_read])` (lines 633-634).
`aiSummary` stands for the model-generated summary text. -/
def summarize_emails (msgs : List RawEmailMsg) (aiSummary : String) : Option EmailSummary :=
  let emails := get_all_emails msgs
  if emails.isEmpty then none
  else
    some { total_emails := emails.length
         , unread_count := (emails.filter fun e => !e.is_read).length
         , summary := aiSummary }

/-- One calendar event as read by `check_availability` (tools.py lines
269-283): its start and end instants in minutes. The end field is named
`stop` because `end` is reserved in Lean. -/
structure Evt where
  start : Int
  stop : Int
deriving DecidableEq

/-- tools.py lines 269-283, the `for event in events` loop of
`check_availability`: before each event, when the gap test
`(event_start - current_time).total_seconds() >= duration_minutes * 60` and
the `slot_end <= event_start` test both pass, emit `(current, current + d)`;
then set the cursor to the event's end. Times are in minutes, so
`total_seconds()` becomes multiplication by 60. -/
def availLoop (d c : Int) : List Evt → List (Int × Int)
  | [] => []
  | e :: es =>
      (if (e.start - c) * 60 ≥ d * 60 then
        if c + d ≤ e.start then [(c, c + d)] else []
      else []) ++ availLoop d e.stop es

/-- The value of `current_time` after the loop of tools.py lines 269-283. -/
def finalCursor (c : Int) : List Evt → Int
  | [] => c
  | e :: es => finalCursor e.stop es

/-- tools.py lines 238-295, `CalendarTools.check_availability`: sort the events
returned by the backend by start time (line 262), run the cursor loop, then
apply the same two tests once more against the range end (lines 286-292). -/
def check_availability (d s e : Int) (events : List Evt) : List (Int × Int) :=
  let evs := events.insertionSort fun a b => a.start ≤ b.start
  availLoop d s evs ++
    (let c := finalCursor s evs
     if (e - c) * 60 ≥ d * 60 then
       if c + d ≤ e then [(c, c + d)] else []
     else [])

/-- Lower-case an ASCII character, as Python `str.lower` does on the ASCII
keyword tables of main.py. -/
def lowerChar (c : Char) : Char :=
  if 'A' ≤ c ∧ c ≤ 'Z' then Char.ofNat (c.toNat + 32) else c

/-- Python `intent.lower()`, as a character list. -/
def pyLower (s : String) : List Char := s.toList.map lowerChar

/-- Python substring membership `needle in hay`. -/
def subOf (needle : String) (hay : List Char) : Bool :=
  hay.tails.any fun t => needle.toList.isPrefixOf t

/-- One row of the static intent tables of `_detect_gmail_intent` and
`_detect_calendar_intent` (main.py lines 112-141 and 268-284). -/
structure IntentCategory where
  name : String
  indicators : List String
  entities : List String
  required : List String
deriving DecidableEq

/-- main.py line 146 / 289:
`any(indicator in intent.lower() for indicator in info['indicators'])`. -/
def keywordHit (intent : String) (cat : IntentCategory) : Bool :=
  cat.indicators.any fun ind => subOf ind (pyLower intent)

/-- main.py lines 148-150 / 291-293: keep `(entity, params[entity])` for each
recognized entity that is present in `params` (modelled as an association
list from parameter name to value). -/
def projectEntities (cat : IntentCategory) (params : List (String × String)) :
    List (String × String) :=
  cat.entities.filterMap fun e => (List.lookup e params).map fun v => (e, v)

/-- main.py line 153 / 296:
`[req for req in info['required'] if req not in entities]`. -/
def missingRequired (cat : IntentCategory) (ents : List (String × String)) : List String :=
  cat.required.filter fun r => !(ents.any fun p => p.1 == r)

/-- main.py lines 144-162 and 287-305: walk the category table in declaration
order; on the first indicator hit, project the entities and either fail the
whole call with `(None, None)` (some required entity missing) or return the
category and its entities. No indicator hit anywhere also fails. -/
def detectIntent (cats : List IntentCategory) (intent : String)
    (params : List (String × String)) : Option (String × List (String × String)) :=
  match cats with
  | [] => none
  | cat :: rest =>
      if keywordHit intent cat then
        let ents := projectEntities cat params
        if (missingRequired cat ents).isEmpty then some (cat.name, ents) else none
      else detectIntent rest intent params

/-- main.py lines 113-122: the `summarize` row of the Gmail intent table. -/
def summarizeCat : IntentCategory :=
  { name := "summarize"
  , indicators :=
      [ "summarize", "summarise", "summary", "summaries", "summarization"
      , "summarisation", "overview", "review", "recap", "recapitulate"
      , "what\x27s in", "what is in", "whats in", "what are my", "what are the"
      , "unread", "inbox", "emails", "messages" ]
  , entities := ["count", "unread_only", "time_period"]
  , required := [] }

/-- main.py lines 123-131: the `send` row of the Gmail intent table. -/
def sendCat : IntentCategory :=
  { name := "send"
  , indicators :=
      [ "send", "write", "compose", "draft", "create", "new email"
      , "new message", "write to", "email to", "mail to", "message to"
      , "forward", "reply", "respond", "response" ]
  , entities := ["to", "subject", "content", "cc", "bcc"]
  , required := ["to", "subject", "content"] }

/-- main.py lines 132-140: the `retrieve` row of the Gmail intent table. -/
def retrieveCat : IntentCategory :=
  { name := "retrieve"
  , indicators :=
      [ "get", "retrieve", "fetch", "find", "search", "look up"
      , "show me", "display", "view", "read", "open", "access"
      , "specific", "particular", "certain", "this email" ]
  , entities := ["email_id", "search_query", "time_period"]
  , required := ["email_id"] }

/-- main.py lines 112-141: the Gmail intent table, in declaration order. -/
def gmailCategories : List IntentCategory := [summarizeCat, sendCat, retrieveCat]

/-- main.py lines 269-273: the `create` row of the calendar intent table. -/
def createCat : IntentCategory :=
  { name := "create"
  , indicators := ["create", "schedule", "add", "book", "set up", "setup", "arrange", "plan"]
  , entities := ["event_title", "start_date", "duration", "attendees", "location"]
  , required := ["event_title", "start_date"] }

/-- main.py lines 274-278: the `list` row of the calendar intent table. -/
def listCat : IntentCategory :=
  { name := "list"
  , indicators := ["list", "show", "display", "view", "check", "retrieve", "get", "fetch"]
  , entities := ["start_date", "end_date", "count"]
  , required := [] }

/-- main.py lines 279-283: the `availability` row of the calendar intent table. -/
def availabilityCat : IntentCategory :=
  { name := "availability"
  , indicators := ["available", "availability", "free", "open", "when am i free"]
  , entities := ["start_date", "end_date", "duration"]
  , required := ["start_date", "end_date", "duration"] }

/-- main.py lines 268-284: the calendar intent table, in declaration order. -/
def calendarCategories : List IntentCategory := [createCat, listCat, availabilityCat]

/-- main.py lines 108-166, `CalendarAgent._detect_gmail_intent`. -/
def detect_gmail_intent (intent : String) (params : List (String × String)) :
    Option (String × List (String × String)) :=
  detectIntent gmailCategories intent params

/-- main.py lines 264-309, `CalendarAgent._detect_calendar_intent`. -/
def detect_calendar_intent (intent : String) (params : List (String × String)) :
    Option (String × List (String × String)) :=
  detectIntent calendarCategories intent params

/-- main.py lines 536-542, `email_intent_patterns` (verbatim, duplicates
included). -/
def email_intent_patterns : List String :=
  [ "email", "mail", "inbox", "message", "correspondence"
  , "send", "write", "compose", "draft", "forward", "reply"
  , "incoming", "outgoing", "unread", "read", "inbox"
  , "mailbox", "correspondence", "communication", "notify"
  , "notification", "alert", "reminder", "announcement" ]

/-- main.py lines 544-551, `calendar_intent_patterns` (verbatim). -/
def calendar_intent_patterns : List String :=
  [ "calendar", "schedule", "event", "meeting", "appointment"
  , "booking", "reservation", "plan", "arrange", "organize"
  , "time", "slot", "availability", "free", "busy", "occupied"
  , "upcoming", "future", "date", "day", "week", "month"
  , "agenda", "diary", "timetable", "program", "session"
  , "conference", "call", "interview", "presentation" ]

/-- The three ways `_process_command` can dispatch a parsed intent. -/
inductive Route where
  | gmail : Route
  | calendar : Route
  | general : Route
deriving DecidableEq

/-- main.py lines 554-571: lower-case the parsed intent string, route to the
Gmail handler on any email-pattern substring hit, else to the calendar handler
on any calendar-pattern hit, else fall back to a free-text model response. -/
def routeIntent (intent : String) : Route :=
  let low := pyLower intent
  if email_intent_patterns.any (fun p => subOf p low) then Route.gmail
  else if calendar_intent_patterns.any (fun p => subOf p low) then Route.calendar
  else Route.general

/-- The entities reaching the `list` branch of `_handle_calendar_action`;
dates are modelled as day numbers so adding `timedelta(days=7)` is `+ 7`. -/
structure ListEntities where
  start_date : Option Int := none
  end_date : Option Int := none
  count : Option Nat := none

/-- main.py lines 360-388, the `list` branch of `_handle_calendar_action`:
an absent `start_date` defaults to the current date (line 369); an absent
`end_date` defaults to `current_date + timedelta(days=7)` (line 376); an
absent `count` defaults to 5 (line 380). Returns the
`(start_date, end_date, max_results)` triple passed to `list_events`. -/
def listEventArgs (currentDate : Int) (ent : ListEntities) : Int × Int × Nat :=
  (ent.start_date.getD currentDate, ent.end_date.getD (currentDate + 7), ent.count.getD 5)

/-- Observable outcome of `CalendarAgent.send_email`: whether
`GmailTools.create_email` was invoked, and the boolean the method returns.
The method catches every exception and returns a boolean, so it never
raises. -/
structure SendTrace where
  backend_invoked : Bool
  result : Bool
deriving DecidableEq

/-- main.py lines 642-682, `CalendarAgent.send_email`: the advisory AI review
(`_review`, printed but never consulted) is followed by a `y`/`n` prompt; only
the answer `"y"` reaches the `create_email` call (line 664-667), whose result
`backendResult` is returned; any other answer returns `False` without
invoking the backend. -/
def send_email (_review : String) (user_choice : String) (backendResult : Bool) : SendTrace :=
  if user_choice = "y" then { backend_invoked := true, result := backendResult }
  else { backend_invoked := false, result := false }

/-- Python whitespace as stripped by `str.strip()` (ASCII range). -/
def pyIsSpace (c : Char) : Bool :=
  c = ' ' || c = '\t' || c = '\n' || c = '\r' || c = '\x0b' || c = '\x0c'

/-- Python `str.strip()`: drop whitespace from both ends. -/
def pyStrip (l : List Char) : List Char :=
  ((l.dropWhile pyIsSpace).reverse.dropWhile pyIsSpace).reverse

/-- The leading fence recognized at main.py line 524. -/
def fenceOpen : List Char := "```json".toList

/-- The trailing fence recognized at main.py line 526. -/
def fenceClose : List Char := "```".toList

/-- main.py lines 523-528, the response-cleaning step of `_process_command`:
strip, drop a leading `"```json"` (`analysis[7:]`) when present, drop a
trailing `"```"` (`analysis[:-3]`, i.e. keep the first `length - 3`
characters) when present, strip again. -/
def cleanAnalysis (l : List Char) : List Char :=
  let s1 := pyStrip l
  let s2 := if fenceOpen.isPrefixOf s1 then s1.drop 7 else s1
  let s3 := if fenceClose.isSuffixOf s2 then s2.take (s2.length - 3) else s2
  pyStrip s3

/-! Helper lemmas about the conversation history. -/

theorem add_message_max (cdt : Nat) (h : ConversationHistory) (r c : String) :
    (add_message cdt h r c).max_history = h.max_history := by
  simp only [add_message]
  split <;> rfl

theorem add_message_len (cdt : Nat) (h : ConversationHistory) (r c : String)
    (hle : h.messages.length ≤ h.max_history) :
    (add_message cdt h r c).messages.length ≤ h.max_history := by
  simp only [add_message]
  split
  · next hgt =>
    simp only [List.length_tail, List.length_append, List.length_singleton]
    omega
  · next hgt =>
    simp only [List.length_append, List.length_singleton] at hgt ⊢
    omega

theorem addAll_len (cdt : Nat) (calls : List (String × String)) :
    ∀ h : ConversationHistory, h.messages.length ≤ h.max_history →
      (addAll cdt h calls).messages.length ≤ h.max_history := by
  induction calls with
  | nil => intro h hle; simpa [addAll] using hle
  | cons rc calls ih =>
    intro h hle
    have hstep := ih (add_message cdt h rc.1 rc.2)
      (by rw [add_message_max]; exact add_message_len cdt h rc.1 rc.2 hle)
    rw [add_message_max] at hstep
    simpa [addAll, List.foldl_cons] using hstep

theorem mem_add_message (cdt : Nat) (h : ConversationHistory) (r c : String) (m : Message)
    (hm : m ∈ (add_message cdt h r c).messages) :
    m ∈ h.messages ∨ m = mkMessage cdt r c := by
  simp only [add_message] at hm
  split at hm
  · have := List.mem_of_mem_tail hm
    simpa using this
  · simpa using hm

theorem addAll_timestamp (cdt : Nat) (calls : List (String × String)) :
    ∀ h : ConversationHistory, (∀ m ∈ h.messages, m.timestamp = cdt) →
      ∀ m ∈ (addAll cdt h calls).messages, m.timestamp = cdt := by
  induction calls with
  | nil => intro h hh m hm; exact hh m (by simpa [addAll] using hm)
  | cons rc calls ih =>
    intro h hh m hm
    rw [addAll, List.foldl_cons] at hm
    refine ih (add_message cdt h rc.1 rc.2) ?_ m hm
    intro m' hm'
    rcases mem_add_message cdt h rc.1 rc.2 m' hm' with h1 | h1
    · exact hh m' h1
    · rw [h1]; rfl

/-- C5: `ConversationHistory` is a FIFO buffer bounded by `max_history`
(default 10): `add_message` preserves the bound, appends without eviction
below capacity, evicts exactly the oldest message (the list head) when the
insertion would exceed capacity, and every sequence of `add_message` calls
keeps the bound. -/
theorem conversation_history_fifo (cdt : Nat) (h : ConversationHistory) (role content : String) :
    (h.messages.length ≤ h.max_history →
      (add_message cdt h role content).messages.length ≤ h.max_history)
    ∧ (h.messages.length < h.max_history →
      (add_message cdt h role content).messages = h.messages ++ [mkMessage cdt role content])
    ∧ (h.messages.length = h.max_history → 0 < h.max_history →
      (add_message cdt h role content).messages
        = h.messages.tail ++ [mkMessage cdt role content])
    ∧ ∀ calls : List (String × String), h.messages.length ≤ h.max_history →
        (addAll cdt h calls).messages.length ≤ h.max_history := by
  refine ⟨add_message_len cdt h role content, ?_, ?_, fun calls => addAll_len cdt calls h⟩
  · intro hlt
    simp only [add_message]
    split
    · next hgt =>
      simp only [List.length_append, List.length_singleton] at hgt
      omega
    · rfl
  · intro heq hpos
    simp only [add_message]
    split
    · cases hms : h.messages with
      | nil =>
        rw [hms] at heq
        simp only [List.length_nil] at heq
        omega
      | cons m0 ms => simp [hms]
    · next hgt =>
      simp only [List.length_append, List.length_singleton] at hgt
      omega

/-- C5 witness: at capacity 2 with two stored messages, a third `add_message`
evicts the oldest and appends the new one. -/
theorem conversation_history_fifo_witness :
    (add_message 0 { messages := [mkMessage 0 "user" "a", mkMessage 0 "assistant" "b"]
                   , max_history := 2 } "user" "c").messages
      = [mkMessage 0 "assistant" "b", mkMessage 0 "user" "c"] := by
  have := (conversation_history_fifo 0
      { messages := [mkMessage 0 "user" "a", mkMessage 0 "assistant" "b"], max_history := 2 }
      "user" "c").2.2.1 (by decide) (by decide)
  simpa using this

/-- C10: the `Message.timestamp` default is the one clock value taken when the
class body was evaluated (`cdt`); `add_message` never passes a timestamp, so
every message it ever stores carries that same value, and two messages added
at different turns are indistinguishable by their timestamp fields. -/
theorem message_timestamp_constant (cdt : Nat) :
    (∀ (h : ConversationHistory) (r c : String) (m : Message),
        m ∈ (add_message cdt h r c).messages → m ∈ h.messages ∨ m.timestamp = cdt)
    ∧ ∀ (calls : List (String × String)) (m₁ m₂ : Message),
        m₁ ∈ (addAll cdt {} calls).messages → m₂ ∈ (addAll cdt {} calls).messages →
        m₁.timestamp = m₂.timestamp := by
  constructor
  · intro h r c m hm
    rcases mem_add_message cdt h r c m hm with h1 | h1
    · exact Or.inl h1
    · exact Or.inr (by rw [h1]; rfl)
  · intro calls m₁ m₂ h₁ h₂
    have e₁ := addAll_timestamp cdt calls {} (by simp) m₁ h₁
    have e₂ := addAll_timestamp cdt calls {} (by simp) m₂ h₂
    rw [e₁, e₂]

/-- C10 witness: two messages added on different turns have equal timestamps. -/
theorem message_timestamp_constant_witness :
    (mkMessage 5 "user" "hi").timestamp = (mkMessage 5 "assistant" "yo").timestamp :=
  (message_timestamp_constant 5).2 [("user", "hi"), ("assistant", "yo")]
    (mkMessage 5 "user" "hi") (mkMessage 5 "assistant" "yo") (by decide) (by decide)

/-- C1: at the failing input — the backend answering the unread-only query
with three messages, each carrying the `UNREAD` label — the code produces
`unread_count = 0`, not 3: `get_all_emails` sets `is_read` to True exactly for
`UNREAD`-labelled (i.e. unread) messages (tools.py line 72), the reverse of
the convention `get_email` uses (tools.py line 123), so `summarize_emails`
counts no email as unread. The second conjunct exhibits the internal
contradiction between the two code paths on every raw message. -/
theorem summarize_three_unread_count_zero :
    summarize_emails
        [⟨"m1", ["UNREAD"]⟩, ⟨"m2", ["UNREAD"]⟩, ⟨"m3", ["UNREAD"]⟩] "ai summary"
      = some { total_emails := 3, unread_count := 0, summary := "ai summary" }
    ∧ ∀ m : RawEmailMsg,
        (get_all_emails [m]).map EmailRec.is_read = [!get_email_is_read m] := by
  refine ⟨by decide, ?_⟩
  intro m
  simp [get_all_emails, get_email_is_read]

/-! Helper lemmas about the free-slot search. -/

theorem availLoop_cons_mem (d c : Int) (e : Evt) (es : List Evt) (p : Int × Int)
    (hp : p ∈ availLoop d c (e :: es)) :
    (p = (c, c + d) ∧ c + d ≤ e.start ∧ (e.start - c) * 60 ≥ d * 60)
      ∨ p ∈ availLoop d e.stop es := by
  simp only [availLoop, List.mem_append] at hp
  rcases hp with hp | hp
  · left
    by_cases h1 : (e.start - c) * 60 ≥ d * 60
    · by_cases h2 : c + d ≤ e.start
      · simp only [h1, h2, if_pos, List.mem_singleton] at hp
        exact ⟨hp, h2, h1⟩
      · simp [h1, h2] at hp
    · simp [h1] at hp
  · right
    exact hp

theorem availLoop_mem_spec (d : Int) (es : List Evt) :
    ∀ (c : Int) (p : Int × Int), p ∈ availLoop d c es →
      p.2 = p.1 + d ∧ (p.1 = c ∨ ∃ ev ∈ es, p.1 = ev.stop)
        ∧ ∃ ev ∈ es, p.2 ≤ ev.start := by
  induction es with
  | nil => intro c p hp; simp [availLoop] at hp
  | cons e es ih =>
    intro c p hp
    rcases availLoop_cons_mem d c e es p hp with ⟨hpe, h2, _⟩ | hp'
    · subst hpe
      exact ⟨rfl, Or.inl rfl, ⟨e, by simp, h2⟩⟩
    · obtain ⟨hd, ho, hb⟩ := ih e.stop p hp'
      refine ⟨hd, ?_, ?_⟩
      · rcases ho with h | ⟨ev, hev, hev2⟩
        · exact Or.inr ⟨e, by simp, h⟩
        · exact Or.inr ⟨ev, by simp [hev], hev2⟩
      · obtain ⟨ev, hev, hev2⟩ := hb
        exact ⟨ev, by simp [hev], hev2⟩

theorem finalCursor_cases (es : List Evt) :
    ∀ c : Int, finalCursor c es = c ∨ ∃ ev ∈ es, finalCursor c es = ev.stop := by
  induction es with
  | nil => intro c; exact Or.inl rfl
  | cons e es ih =>
    intro c
    rcases ih e.stop with h | ⟨ev, hev, hev2⟩
    · exact Or.inr ⟨e, by simp, h⟩
    · exact Or.inr ⟨ev, by simp [hev], by simpa [finalCursor] using hev2⟩

theorem check_availability_mem_spec (d s e : Int) (events : List Evt) (p : Int × Int)
    (hp : p ∈ check_availability d s e events) :
    p.2 = p.1 + d ∧ (p.1 = s ∨ ∃ ev ∈ events, p.1 = ev.stop)
      ∧ ((∃ ev ∈ events, p.2 ≤ ev.start) ∨ p.2 ≤ e) := by
  simp only [check_availability, List.mem_append] at hp
  rcases hp with hp | hp
  · obtain ⟨hd, ho, hb⟩ :=
      availLoop_mem_spec d (events.insertionSort fun a b => a.start ≤ b.start) s p hp
    refine ⟨hd, ?_, ?_⟩
    · rcases ho with h | ⟨ev, hev, hev2⟩
      · exact Or.inl h
      · exact Or.inr ⟨ev, (List.mem_insertionSort _).mp hev, hev2⟩
    · obtain ⟨ev, hev, hev2⟩ := hb
      exact Or.inl ⟨ev, (List.mem_insertionSort _).mp hev, hev2⟩
  · set evs := events.insertionSort fun a b => a.start ≤ b.start with hevs
    by_cases h1 : (e - finalCursor s evs) * 60 ≥ d * 60
    · by_cases h2 : finalCursor s evs + d ≤ e
      · simp only [h1, h2, if_pos, List.mem_singleton] at hp
        subst hp
        refine ⟨rfl, ?_, Or.inr h2⟩
        rcases finalCursor_cases evs s with h | ⟨ev, hev, hev2⟩
        · exact Or.inl h
        · exact Or.inr ⟨ev, (List.mem_insertionSort _).mp hev, hev2⟩
      · simp [h1, h2] at hp
    · simp [h1] at hp

/-- C2: on the spec's example — existing events (10:00,10:30) and
(11:00,12:00), range 09:00-13:00, duration 30, all in minutes from
midnight — `check_availability` returns exactly (09:00,09:30), (10:30,11:00)
and (12:00,12:30); and in general every emitted slot ends exactly `d` after
its start, starts at a cursor value (the range start or some event's end),
and respects the gap bound (its end is at or before some event's start, or
at or before the range end). -/
theorem check_availability_example_and_shape :
    check_availability 30 540 780 [⟨600, 630⟩, ⟨660, 720⟩]
      = [(540, 570), (630, 660), (720, 750)]
    ∧ ∀ (d s e : Int) (events : List Evt) (p : Int × Int),
        p ∈ check_availability d s e events →
          p.2 = p.1 + d ∧ (p.1 = s ∨ ∃ ev ∈ events, p.1 = ev.stop)
            ∧ ((∃ ev ∈ events, p.2 ≤ ev.start) ∨ p.2 ≤ e) :=
  ⟨by decide, fun d s e events p hp => check_availability_mem_spec d s e events p hp⟩

/-- C2 witness: the slot (09:00,09:30) of the example instantiates the
general shape facts. -/
theorem check_availability_example_shape_witness :
    ((540, 570) : Int × Int).2 = ((540, 570) : Int × Int).1 + 30
    ∧ (((540, 570) : Int × Int).1 = 540
        ∨ ∃ ev ∈ [Evt.mk 600 630, Evt.mk 660 720], ((540, 570) : Int × Int).1 = ev.stop)
    ∧ ((∃ ev ∈ [Evt.mk 600 630, Evt.mk 660 720], ((540, 570) : Int × Int).2 ≤ ev.start)
        ∨ ((540, 570) : Int × Int).2 ≤ 780) :=
  check_availability_example_and_shape.2 30 540 780 [⟨600, 630⟩, ⟨660, 720⟩] (540, 570)
    (by decide)

/-- C3 counterexample: the event list [(10:00,12:00), (10:30,11:00)] is sorted
by start time, yet the second event is contained in the first, so the
unconditional `current_time = event_end` (tools.py line 283) moves the cursor
backward from 12:00 to 11:00, and the emitted slot (11:00,11:30) overlaps the
event (10:00,12:00). Times in minutes from midnight. -/
theorem check_availability_backward_cursor_cex :
    List.Sorted (fun a b : Evt => a.start ≤ b.start) [⟨600, 720⟩, ⟨630, 660⟩]
    ∧ finalCursor 540 [⟨600, 720⟩] = 720
    ∧ finalCursor 540 [Evt.mk 600 720, Evt.mk 630 660] = 660
    ∧ (660 : Int) < 720
    ∧ check_availability 30 540 780 [⟨600, 720⟩, ⟨630, 660⟩] = [(540, 570), (660, 690)]
    ∧ (660, 690) ∈ check_availability 30 540 780 [⟨600, 720⟩, ⟨630, 660⟩]
    ∧ Evt.mk 600 720 ∈ [Evt.mk 600 720, Evt.mk 630 660]
    ∧ ¬ ((660 : Int) + 30 ≤ 600 ∨ (720 : Int) ≤ 660) := by
  refine ⟨by simp [List.sorted_cons], by decide, by decide, by decide, by decide,
    by decide, by decide, by decide⟩

theorem availLoop_ge (d : Int) (es : List Evt) :
    ∀ c : Int, List.Chain' (· ≤ ·) (c :: es.map Evt.stop) →
      ∀ p ∈ availLoop d c es, c ≤ p.1 := by
  induction es with
  | nil => intro c _ p hp; simp [availLoop] at hp
  | cons e es ih =>
    intro c hc p hp
    have hc' : c ≤ e.stop ∧ List.Chain' (· ≤ ·) (e.stop :: es.map Evt.stop) := by
      simpa [List.chain'_cons] using hc
    rcases availLoop_cons_mem d c e es p hp with ⟨hpe, _, _⟩ | hp'
    · simp [hpe]
    · exact le_trans hc'.1 (ih e.stop hc'.2 p hp')

theorem finalCursor_ge (es : List Evt) :
    ∀ c : Int, List.Chain' (· ≤ ·) (c :: es.map Evt.stop) → c ≤ finalCursor c es := by
  induction es with
  | nil => intro c _; simp [finalCursor]
  | cons e es ih =>
    intro c hc
    have hc' : c ≤ e.stop ∧ List.Chain' (· ≤ ·) (e.stop :: es.map Evt.stop) := by
      simpa [List.chain'_cons] using hc
    simpa [finalCursor] using le_trans hc'.1 (ih e.stop hc'.2)

theorem finalCursor_stops_le (es : List Evt) :
    ∀ c : Int, List.Chain' (· ≤ ·) (es.map Evt.stop) →
      ∀ ev ∈ es, ev.stop ≤ finalCursor c es := by
  induction es with
  | nil => intro c _ ev hev; simp at hev
  | cons e es ih =>
    intro c hc ev hev
    simp only [List.map_cons] at hc
    simp only [finalCursor]
    rcases List.mem_cons.mp hev with h | h
    · subst h
      exact finalCursor_ge es ev.stop hc
    · exact ih e.stop (by simpa using hc.tail) ev h

theorem availLoop_no_overlap (d : Int) (es : List Evt) :
    ∀ c : Int,
      List.Pairwise (fun a b => a.start ≤ b.start) es →
      List.Chain' (· ≤ ·) (es.map Evt.stop) →
      ∀ p ∈ availLoop d c es, ∀ ev ∈ es, p.2 ≤ ev.start ∨ ev.stop ≤ p.1 := by
  induction es with
  | nil => intro c _ _ p hp; simp [availLoop] at hp
  | cons e es ih =>
    intro c hs hc p hp ev hev
    have hs1 : ∀ b ∈ es, e.start ≤ b.start := (List.pairwise_cons.mp hs).1
    have hs2 := (List.pairwise_cons.mp hs).2
    simp only [List.map_cons] at hc
    rcases availLoop_cons_mem d c e es p hp with ⟨hpe, h2, _⟩ | hp'
    · subst hpe
      rcases List.mem_cons.mp hev with h | h
      · subst h
        exact Or.inl h2
      · exact Or.inl (le_trans h2 (hs1 ev h))
    · rcases List.mem_cons.mp hev with h | h
      · subst h
        exact Or.inr (availLoop_ge d es ev.stop hc p hp')
      · exact ih e.stop hs2 (by simpa using hc.tail) p hp' ev h

/-- C3 (amended): cursor monotonicity holds only when the end times of the
start-sorted events are themselves non-decreasing and no event ends before
the range start — then the cursor trace (range start followed by the
successive event ends) never decreases and no emitted slot overlaps any
event. An event entirely contained in an earlier event violates these
hypotheses and does move the cursor backward (see the counterexample). -/
theorem check_availability_no_overlap
    (d s e : Int) (events : List Evt)
    (hs : List.Sorted (fun a b => a.start ≤ b.start) events)
    (he : List.Chain' (fun a b => a.stop ≤ b.stop) events)
    (h0 : ∀ ev ∈ events, s ≤ ev.stop) :
    List.Chain' (· ≤ ·) (s :: events.map Evt.stop)
    ∧ ∀ p ∈ check_availability d s e events, ∀ ev ∈ events,
        p.2 ≤ ev.start ∨ ev.stop ≤ p.1 := by
  have hmap : List.Chain' (· ≤ ·) (events.map Evt.stop) := (List.chain'_map _).mpr he
  have hsort : events.insertionSort (fun a b => a.start ≤ b.start) = events :=
    List.Sorted.insertionSort_eq hs
  constructor
  · cases events with
    | nil => simp
    | cons ev es =>
      have h0e : s ≤ ev.stop := h0 ev (by simp)
      simp only [List.map_cons] at hmap ⊢
      exact (List.chain'_cons).mpr ⟨h0e, hmap⟩
  · intro p hp ev hev
    simp only [check_availability, hsort, List.mem_append] at hp
    rcases hp with hp | hp
    · exact availLoop_no_overlap d events s hs hmap p hp ev hev
    · by_cases h1 : (e - finalCursor s events) * 60 ≥ d * 60
      · by_cases h2 : finalCursor s events + d ≤ e
        · simp only [h1, h2, if_pos, List.mem_singleton] at hp
          subst hp
          exact Or.inr (finalCursor_stops_le events s hmap ev hev)
        · simp [h1, h2] at hp
      · simp [h1] at hp

/-- C3 witness for the amended statement: two disjoint events inside the
range satisfy the hypotheses. -/
theorem check_availability_no_overlap_witness :
    List.Chain' (· ≤ ·) (540 :: [Evt.mk 600 630, Evt.mk 660 720].map Evt.stop)
    ∧ ∀ p ∈ check_availability 30 540 780 [Evt.mk 600 630, Evt.mk 660 720],
        ∀ ev ∈ [Evt.mk 600 630, Evt.mk 660 720], p.2 ≤ ev.start ∨ ev.stop ≤ p.1 :=
  check_availability_no_overlap 30 540 780 [Evt.mk 600 630, Evt.mk 660 720]
    (by simp [List.sorted_cons]) (by simp [List.chain'_cons]) (by decide)

/-! Helper lemmas about the intent classifiers. -/

theorem projectEntities_key_lookup (cat : IntentCategory) (params : List (String × String))
    (r : String)
    (hany : (projectEntities cat params).any (fun p => p.1 == r) = true) :
    (List.lookup r params).isSome = true := by
  simp only [List.any_eq_true] at hany
  obtain ⟨p, hp, hr⟩ := hany
  simp only [projectEntities, List.mem_filterMap] at hp
  obtain ⟨a, _, ha⟩ := hp
  simp only [Option.map_eq_some'] at ha
  obtain ⟨v, hv, hgv⟩ := ha
  subst hgv
  rw [beq_iff_eq] at hr
  rw [← hr]
  simp [hv]

theorem missingRequired_empty (cat : IntentCategory) (ents : List (String × String))
    (hm : (missingRequired cat ents).isEmpty = true) :
    ∀ r ∈ cat.required, ents.any (fun p => p.1 == r) = true := by
  intro r hr
  rw [List.isEmpty_iff] at hm
  have hnr := List.filter_eq_nil_iff.mp hm r hr
  simpa using hnr

theorem detectIntent_some_required (cats : List IntentCategory) :
    ∀ (intent : String) (params : List (String × String)) (name : String)
      (ents : List (String × String)),
      detectIntent cats intent params = some (name, ents) →
      ∃ cat, cat ∈ cats ∧ cat.name = name ∧
        ∀ r ∈ cat.required, (List.lookup r params).isSome = true := by
  induction cats with
  | nil => intro intent params name ents hd; simp [detectIntent] at hd
  | cons cat rest ih =>
    intro intent params name ents hd
    by_cases hk : keywordHit intent cat
    · by_cases hm : (missingRequired cat (projectEntities cat params)).isEmpty
      · simp only [detectIntent, hk, hm, if_true, Option.some.injEq, Prod.mk.injEq] at hd
        obtain ⟨hname, hents⟩ := hd
        refine ⟨cat, by simp, hname, ?_⟩
        intro r hr
        exact projectEntities_key_lookup cat params r
          (missingRequired_empty cat (projectEntities cat params) hm r hr)
      · simp [detectIntent, hk, hm] at hd
    · simp only [detectIntent, hk, if_false, Bool.false_eq_true] at hd
      obtain ⟨cat', hmem, hname, hreq⟩ := ih intent params name ents hd
      exact ⟨cat', by simp [hmem], hname, hreq⟩

theorem detectIntent_none_of_missing (cats : List IntentCategory) :
    ∀ (intent : String) (params : List (String × String)) (cat : IntentCategory),
      cats.find? (keywordHit intent) = some cat →
      (missingRequired cat (projectEntities cat params)).isEmpty = false →
      detectIntent cats intent params = none := by
  induction cats with
  | nil => intro intent params cat hf _; simp at hf
  | cons c rest ih =>
    intro intent params cat hf hm
    by_cases hk : keywordHit intent c
    · rw [List.find?_cons_of_pos _ hk] at hf
      obtain rfl : c = cat := by simpa using hf
      simp [detectIntent, hk, hm]
    · rw [List.find?_cons_of_neg _ hk] at hf
      simp [detectIntent, hk, ih intent params cat hf hm]

/-- C4: for both classifiers, a category is only ever returned when every one
of its required entities is a key of the parameters mapping; and once some
category's indicator keyword hits the intent string, a missing required
entity makes the whole classification call return nothing — it never falls
through to later categories (`find?` picks the first keyword hit, exactly the
category the loop of `_detect_gmail_intent` / `_detect_calendar_intent`
commits to). -/
theorem classifiers_required_law :
    (∀ (intent : String) (params : List (String × String)) (name : String)
        (ents : List (String × String)),
        detect_gmail_intent intent params = some (name, ents) →
        ∃ cat, cat ∈ gmailCategories ∧ cat.name = name ∧
          ∀ r ∈ cat.required, (List.lookup r params).isSome = true)
    ∧ (∀ (intent : String) (params : List (String × String)) (name : String)
        (ents : List (String × String)),
        detect_calendar_intent intent params = some (name, ents) →
        ∃ cat, cat ∈ calendarCategories ∧ cat.name = name ∧
          ∀ r ∈ cat.required, (List.lookup r params).isSome = true)
    ∧ ∀ (cats : List IntentCategory) (intent : String) (params : List (String × String))
        (cat : IntentCategory),
        cats.find? (keywordHit intent) = some cat →
        (missingRequired cat (projectEntities cat params)).isEmpty = false →
        detectIntent cats intent params = none :=
  ⟨fun intent params name ents hd =>
      detectIntent_some_required gmailCategories intent params name ents hd,
   fun intent params name ents hd =>
      detectIntent_some_required calendarCategories intent params name ents hd,
   fun cats intent params cat hf hm =>
      detectIntent_none_of_missing cats intent params cat hf hm⟩

/-- C4 witness: "send a note" hits the send category's keywords first, and
with an empty parameters mapping (no to/subject/content) the whole Gmail
classification call returns nothing. -/
theorem classifiers_required_law_witness :
    detectIntent gmailCategories "send a note" [] = none :=
  classifiers_required_law.2.2 gmailCategories "send a note" [] sendCat
    (by decide) (by decide)

/-- C6: domain precedence in `_process_command` — a parsed intent string that
hits both the email and the calendar keyword sets (case-insensitively, as
substrings) is routed to the Gmail handler, never the calendar handler; one
hitting neither set falls back to a general free-text model response. -/
theorem routeIntent_precedence (intent : String) :
    (email_intent_patterns.any (fun p => subOf p (pyLower intent)) = true →
      calendar_intent_patterns.any (fun p => subOf p (pyLower intent)) = true →
      routeIntent intent = Route.gmail)
    ∧ (email_intent_patterns.any (fun p => subOf p (pyLower intent)) = false →
      calendar_intent_patterns.any (fun p => subOf p (pyLower intent)) = false →
      routeIntent intent = Route.general) := by
  constructor
  · intro he _
    simp [routeIntent, he]
  · intro he hc
    simp [routeIntent, he, hc]

/-- C6 witness: "Send an EMAIL about the meeting" hits both keyword sets and
routes to the Gmail handler; "zzz" hits neither and falls back to the
general response. -/
theorem routeIntent_precedence_witness :
    routeIntent "Send an EMAIL about the meeting" = Route.gmail
    ∧ routeIntent "zzz" = Route.general :=
  ⟨(routeIntent_precedence "Send an EMAIL about the meeting").1 (by decide) (by decide),
   (routeIntent_precedence "zzz").2 (by decide) (by decide)⟩

/-- C7: the event-listing defaults at the failing input — current date day 0,
supplied start_date day 30, end_date absent — produce end_date 7, i.e.
current_date + 7 (main.py line 376), not start_date + 7 = 37 as the claim
and the code's own comment (main.py line 375, "Default to 7 days from start
date") state. The second conjunct confirms the parts of the claim that do
hold: with every entity absent, start defaults to the current date, end to
current + 7 and the count to 5. -/
theorem listEventArgs_end_from_current_date :
    listEventArgs 0 { start_date := some 30 } = (30, 7, 5)
    ∧ ∀ currentDate : Int,
        listEventArgs currentDate {} = (currentDate, currentDate + 7, 5) :=
  ⟨by decide, fun _ => rfl⟩

/-- C8: the backend send is gated solely by the literal confirmation "y":
answering "n" — or anything other than "y" — never invokes `create_email`
and yields the not-sent value `False` as a normal return (the method catches
exceptions, so cancellation is never an error), whatever the AI review text;
and the backend runs exactly when the answer is "y". -/
theorem send_email_only_on_yes (review choice : String) (backendResult : Bool) :
    send_email review "n" backendResult = { backend_invoked := false, result := false }
    ∧ (choice ≠ "y" →
        send_email review choice backendResult
          = { backend_invoked := false, result := false })
    ∧ ((send_email review choice backendResult).backend_invoked = true ↔ choice = "y") := by
  refine ⟨by simp [send_email], ?_, ?_⟩
  · intro hne
    simp [send_email, hne]
  · constructor
    · intro hb
      by_contra hne
      simp [send_email, hne] at hb
    · intro hy
      simp [send_email, hy]

/-- C8 witness: a concrete "n" answer cancels without invoking the backend. -/
theorem send_email_only_on_yes_witness :
    send_email "looks fine" "n" true = { backend_invoked := false, result := false } :=
  (send_email_only_on_yes "looks fine" "n" true).2.1 (by decide)

/-! Helper lemmas about the response-cleaning step. -/

theorem dropWhile_ws_append (p : Char → Bool) (ws l : List Char)
    (hws : ∀ c ∈ ws, p c = true) : (ws ++ l).dropWhile p = l.dropWhile p := by
  induction ws with
  | nil => rfl
  | cons a ws ih =>
    have ha : p a = true := hws a (by simp)
    simp only [List.cons_append, List.dropWhile_cons, ha, if_true]
    exact ih fun c hc => hws c (by simp [hc])

theorem isPrefixOf_append_self (l t : List Char) : l.isPrefixOf (l ++ t) = true := by
  induction l with
  | nil => simp
  | cons a l ih => simp [List.isPrefixOf_cons₂, ih]

theorem pyStrip_ws_sandwich (ws1 ws2 mid : List Char) (a b : Char)
    (h1 : ∀ c ∈ ws1, pyIsSpace c = true) (h2 : ∀ c ∈ ws2, pyIsSpace c = true)
    (ha : pyIsSpace a = false) (hb : pyIsSpace b = false) :
    pyStrip (ws1 ++ (a :: (mid ++ [b])) ++ ws2) = a :: (mid ++ [b]) := by
  unfold pyStrip
  have e1 : (ws1 ++ (a :: (mid ++ [b])) ++ ws2).dropWhile pyIsSpace
      = a :: (mid ++ [b] ++ ws2) := by
    rw [List.append_assoc]
    rw [dropWhile_ws_append pyIsSpace ws1 _ h1]
    simp [List.dropWhile_cons, ha, List.append_assoc]
  rw [e1]
  have e2 : (a :: (mid ++ [b] ++ ws2)).reverse
      = ws2.reverse ++ (b :: (mid.reverse ++ [a])) := by
    simp [List.reverse_cons, List.reverse_append, List.append_assoc]
  rw [e2]
  rw [dropWhile_ws_append pyIsSpace ws2.reverse _
    (fun c hc => h2 c (List.mem_reverse.mp hc))]
  rw [List.dropWhile_cons_of_neg (by simp [hb])]
  simp [List.reverse_append]

/-- C9: the code-fence round trip — cleaning a model response that wraps a
JSON text `j` in a leading ```json and trailing ``` fence, with surrounding
whitespace, yields exactly `j` stripped of its surrounding whitespace, which
`json.loads` parses to the same value as `j` itself, so a fenced response and
the bare JSON produce identical descriptor data. -/
theorem cleanAnalysis_fenced (j ws1 ws2 : List Char)
    (h1 : ∀ c ∈ ws1, pyIsSpace c = true) (h2 : ∀ c ∈ ws2, pyIsSpace c = true) :
    cleanAnalysis (ws1 ++ (fenceOpen ++ j ++ fenceClose) ++ ws2) = pyStrip j := by
  have hfo : fenceOpen = ['\x60', '\x60', '\x60', 'j', 's', 'o', 'n'] := by decide
  have hfc : fenceClose = ['\x60', '\x60', '\x60'] := by decide
  have hcore : fenceOpen ++ j ++ fenceClose
      = '\x60' :: ((['\x60', '\x60', 'j', 's', 'o', 'n'] ++ j ++ ['\x60', '\x60']) ++ ['\x60']) := by
    rw [hfo, hfc]
    simp [List.append_assoc]
  have hs1 : pyStrip (ws1 ++ (fenceOpen ++ j ++ fenceClose) ++ ws2)
      = fenceOpen ++ j ++ fenceClose := by
    rw [hcore]
    exact pyStrip_ws_sandwich ws1 ws2 _ _ _ h1 h2 (by decide) (by decide)
  have hpre : fenceOpen.isPrefixOf (fenceOpen ++ j ++ fenceClose) = true := by
    rw [List.append_assoc]
    exact isPrefixOf_append_self fenceOpen (j ++ fenceClose)
  have hlen : fenceOpen.length = 7 := by decide
  have hdrop : (fenceOpen ++ j ++ fenceClose).drop 7 = j ++ fenceClose := by
    rw [List.append_assoc, ← hlen]
    exact List.drop_left fenceOpen (j ++ fenceClose)
  have hsuf : fenceClose.isSuffixOf (j ++ fenceClose) = true := by
    simp only [List.isSuffixOf, List.reverse_append]
    exact isPrefixOf_append_self fenceClose.reverse j.reverse
  have hlen3 : fenceClose.length = 3 := by decide
  have htake : (j ++ fenceClose).take ((j ++ fenceClose).length - 3) = j := by
    have hl : (j ++ fenceClose).length - 3 = j.length := by
      simp [List.length_append, hlen3]
    rw [hl]
    exact List.take_left j fenceClose
  simp only [cleanAnalysis]
  rw [hs1]
  simp only [hpre, if_true]
  rw [hdrop]
  simp only [hsuf, if_true]
  rw [htake]

/-- C9 witness: a fenced JSON array with surrounding whitespace cleans to the
bare (stripped) JSON text. -/
theorem cleanAnalysis_fenced_witness :
    cleanAnalysis (" \n".toList ++ (fenceOpen ++ "[1, 2]".toList ++ fenceClose) ++ " ".toList)
      = pyStrip "[1, 2]".toList :=
  cleanAnalysis_fenced "[1, 2]".toList " \n".toList " ".toList (by decide) (by decide)

end CalendarAgent
